import Mathlib

/-!
# Verification of the point-cloud viewer core

Shallow embedding of the point-cloud viewer's decoding / filtering /
export pipeline (the PCD/LAS worker decoders, the height filter,
stride downsampling, the export assembler and the load controller),
together with theorems settling the specification claims.

Conventions of the embedding:
* Byte buffers (`ArrayBuffer` / `Uint8Array`) are `List Nat`, each entry a
  byte value `< 256`.
* JavaScript strings are `List Char`.  `TextDecoder('utf-8')` is modelled
  byte-per-char (exact on the ASCII inputs the decoders are written for),
  and `TextEncoder().encode(s).length` is modelled as `s.length`.
* JavaScript floating-point numbers that may be `NaN` are modelled as
  `Option ℚ` (`none` = NaN or a non-finite float); exact values are `ℚ`.
  IEEE-754 payload decoding maps finite floats to their exact rational
  value and the non-finite encodings to `none`.
* A thrown JavaScript exception is `Except.error`: `DataView` accesses
  beyond the view's bounds throw `RangeError`, `throw new Error(...)`
  in the decoders is a format error.
* `postMessage` progress side effects of the worker are not observable by
  any claim and are not modelled.
-/

namespace PCV

/-- A JavaScript number that may be NaN / non-finite (`none`). -/
abbrev JsNum := Option ℚ

/-- Negation on possibly-NaN numbers (`-NaN = NaN`). -/
def jsNeg (a : JsNum) : JsNum := a.map (fun q => -q)

/-- Fused `a * b + c` on possibly-NaN numbers (NaN propagates). -/
def jsMulAdd (a b c : JsNum) : JsNum :=
  match a, b, c with
  | some x, some y, some z => some (x * y + z)
  | _, _, _ => none

/-- An exact coordinate / colour triple. -/
structure Vec3 where
  x : ℚ
  y : ℚ
  z : ℚ
deriving DecidableEq, Repr

/-- A vertex triple whose components may be NaN. -/
structure JsVec3 where
  x : JsNum
  y : JsNum
  z : JsNum
deriving DecidableEq, Repr

/-- The neutral gray colour `(0.7, 0.7, 0.7)` the decoders default to. -/
def grayCol : Vec3 := ⟨7/10, 7/10, 7/10⟩

/-- Zero-initialised entry of a fresh `Float32Array`. -/
def zeroJsVec : JsVec3 := ⟨some 0, some 0, some 0⟩

/-- Zero colour entry of a fresh `Float32Array`. -/
def zeroCol : Vec3 := ⟨0, 0, 0⟩

/-- The decoders' source→display assignment on possibly-NaN vertices
(`vertices[i*3] = -y; [i*3+1] = z; [i*3+2] = -x`). -/
def jsVecToDisplay (v : JsVec3) : JsVec3 := ⟨jsNeg v.y, v.z, jsNeg v.x⟩

/-- Exceptions thrown by the decoders: `RangeError` from an out-of-bounds
`DataView` access, `new Error('无效的 PCD 文件格式')` from the PCD
decoder, `new Error('无效的 LAS 文件格式')` from the LAS decoder. -/
inductive JsError where
  | rangeError
  | formatErrorPCD
  | formatErrorLAS
deriving DecidableEq, Repr

/-! ## JavaScript string helpers -/

/-- Byte decoding: `TextDecoder('utf-8').decode` modelled byte-per-char (exact on ASCII
input, which is what the PCD header/payload grammar uses). -/
def textDecode (bs : List Nat) : List Char :=
  bs.map Char.ofNat

/-- JavaScript `String.prototype.split('\n')` (keeps empty pieces). -/
def splitNl (s : List Char) : List (List Char) :=
  match s with
  | [] => [[]]
  | c :: rest =>
    let tail := splitNl rest
    if c = '\n' then [] :: tail
    else
      match tail with
      | [] => [[c]]
      | piece :: more => (c :: piece) :: more

/-- JavaScript whitespace test (the characters relevant to `\s` on the
inputs at hand). -/
def isWsChar (c : Char) : Bool :=
  c = ' ' || c = '\t' || c = '\n' || c = '\r'

/-- JavaScript `String.prototype.trim`. -/
def jsTrim (s : List Char) : List Char :=
  ((s.dropWhile isWsChar).reverse.dropWhile isWsChar).reverse

/-- Whitespace splitting `trimmed.split(/\s+/)` on an already-trimmed string: the maximal
non-whitespace runs.  (On the empty string JavaScript yields `[""]` while
this yields `[]`; every use site reads `parts[k]`, where a missing entry
and `""` behave identically.) -/
def splitWs (s : List Char) : List (List Char) :=
  match s with
  | [] => []
  | c :: rest =>
    if isWsChar c then splitWs rest
    else
      match splitWs rest with
      | [] => [[c]]
      | piece :: more =>
        match rest with
        | [] => [[c]]
        | r :: _ => if isWsChar r then [c] :: piece :: more else (c :: piece) :: more

/-- Does `needle` occur as a prefix of `hay`? -/
def headMatches : List Char → List Char → Bool
  | [], _ => true
  | _ :: _, [] => false
  | a :: as, b :: bs => a = b && headMatches as bs

/-- JavaScript `hay.indexOf(needle, start)` (`none` = `-1`). -/
def jsIndexOfFrom (hay needle : List Char) (start : ℕ) : Option ℕ :=
  go (hay.drop start) start
where
  go : List Char → ℕ → Option ℕ
  | [], i => if headMatches needle [] then some i else none
  | c :: rest, i =>
    if headMatches needle (c :: rest) then some i
    else go rest (i + 1)

/-- ASCII lower-casing of one char (`String.prototype.toLowerCase` on the
header tokens in play). -/
def lowerCh (c : Char) : Char :=
  if 'A' ≤ c ∧ c ≤ 'Z' then Char.ofNat (c.toNat + 32) else c

/-- ASCII lower-casing of a string. -/
def lowerStr (s : List Char) : List Char := s.map lowerCh

/-- Decimal digit test. -/
def isDigitCh (c : Char) : Bool := '0' ≤ c && c ≤ '9'

/-- Value of a digit list read as a base-10 natural. -/
def digitsToNat (ds : List Char) : ℕ :=
  ds.foldl (fun acc c => acc * 10 + (c.toNat - '0'.toNat)) 0

/-- JavaScript `parseInt(s)` restricted to the header's usage, as a
natural number: leading whitespace skipped, then a digit prefix.  A
missing digit prefix gives NaN in JavaScript; NaN (and the negative-sign
case, which no claim exercises) is modelled as `0`. -/
def jsParseIntNat (s : List Char) : ℕ :=
  digitsToNat ((s.dropWhile isWsChar).takeWhile isDigitCh)

/-- JavaScript `Number(s)` as used on the `SIZE` entries (small decimal
naturals); a non-numeric entry (NaN) is modelled as `0`. -/
def jsNumberNat (s : List Char) : ℕ := jsParseIntNat s

/-- JavaScript `parseFloat(s)`: leading whitespace, optional sign,
decimal mantissa with optional fraction, optional exponent; `none` when
no digit is found (NaN). -/
def jsParseFloat (s : List Char) : JsNum :=
  let s₀ := s.dropWhile isWsChar
  let (sgn, s₁) :=
    match s₀ with
    | '-' :: rest => ((-1 : ℚ), rest)
    | '+' :: rest => ((1 : ℚ), rest)
    | _ => ((1 : ℚ), s₀)
  let intDs := s₁.takeWhile isDigitCh
  let s₂ := s₁.dropWhile isDigitCh
  let (fracDs, s₃) :=
    match s₂ with
    | '.' :: rest => (rest.takeWhile isDigitCh, rest.dropWhile isDigitCh)
    | _ => ([], s₂)
  if intDs = [] ∧ fracDs = [] then none
  else
    let mant : ℚ :=
      (digitsToNat intDs : ℚ) + (digitsToNat fracDs : ℚ) / (10 : ℚ) ^ fracDs.length
    match s₃ with
    | 'e' :: rest => some (readExp (sgn * mant) rest)
    | 'E' :: rest => some (readExp (sgn * mant) rest)
    | _ => some (sgn * mant)
where
  /-- Exponent suffix: optional sign then digits scale the mantissa; an
  exponent without digits is ignored (as `parseFloat` stops before the
  bad suffix). -/
  readExp (v : ℚ) (rest : List Char) : ℚ :=
    let (eneg, r) :=
      match rest with
      | '-' :: r => (true, r)
      | '+' :: r => (false, r)
      | _ => (false, rest)
    let ds := r.takeWhile isDigitCh
    if ds = [] then v
    else if eneg then v / (10 : ℚ) ^ digitsToNat ds
    else v * (10 : ℚ) ^ digitsToNat ds

/-! ## DataView model

A `DataView(buffer, byteOffset)` is the byte list with the first
`byteOffset` bytes dropped.  Every accessor checks the view's bounds and
throws `RangeError` exactly when JavaScript would. -/

/-- Little-endian unsigned value of `n` bytes starting at `off` in
`view` (callers establish the bounds first). -/
def bytesLE (view : List Nat) (off n : ℕ) : ℕ :=
  ((view.drop off).take n).reverse.foldl (fun acc b => acc * 256 + b) 0

/-- A bounds-checked `n`-byte little-endian read. -/
def getBytesLE (view : List Nat) (off n : ℕ) : Except JsError ℕ :=
  if off + n ≤ view.length then .ok (bytesLE view off n) else .error .rangeError

/-- `DataView.prototype.getUint8`. -/
def getUint8 (view : List Nat) (off : ℕ) : Except JsError ℕ :=
  getBytesLE view off 1

/-- `DataView.prototype.getUint16(off, true)`. -/
def getUint16 (view : List Nat) (off : ℕ) : Except JsError ℕ :=
  getBytesLE view off 2

/-- `DataView.prototype.getUint32(off, true)`. -/
def getUint32 (view : List Nat) (off : ℕ) : Except JsError ℕ :=
  getBytesLE view off 4

/-- `DataView.prototype.getBigUint64(off, true)` (the subsequent
`Number(...)` conversion is modelled as exact; no claim observes counts
beyond 2^53). -/
def getBigUint64 (view : List Nat) (off : ℕ) : Except JsError ℕ :=
  getBytesLE view off 8

/-- `DataView.prototype.getInt32(off, true)`: two's-complement signed. -/
def getInt32 (view : List Nat) (off : ℕ) : Except JsError ℤ :=
  (getBytesLE view off 4).map (fun u =>
    if u < 2 ^ 31 then (u : ℤ) else (u : ℤ) - 2 ^ 32)

/-- Exact value of an IEEE-754 binary interchange encoding with `expBits`
exponent bits and `mantBits` mantissa bits; `none` for the non-finite
encodings (infinities / NaNs). -/
def ieeeValue (expBits mantBits bits : ℕ) : JsNum :=
  let mant := bits % 2 ^ mantBits
  let expo := bits / 2 ^ mantBits % 2 ^ expBits
  let sgn : ℚ := if bits / 2 ^ (mantBits + expBits) % 2 = 1 then -1 else 1
  let bias : ℕ := 2 ^ (expBits - 1) - 1
  if expo = 2 ^ expBits - 1 then none
  else if expo = 0 then
    some (sgn * (mant : ℚ) * 2 / ((2 ^ (bias + mantBits) : ℕ) : ℚ))
  else
    some (sgn * ((2 ^ mantBits + mant : ℕ) : ℚ) * ((2 ^ expo : ℕ) : ℚ) /
      ((2 ^ (bias + mantBits) : ℕ) : ℚ))

/-- `DataView.prototype.getFloat32(off, true)`. -/
def getFloat32 (view : List Nat) (off : ℕ) : Except JsError JsNum :=
  (getBytesLE view off 4).map (ieeeValue 8 23)

/-- `DataView.prototype.getFloat64(off, true)`. -/
def getFloat64 (view : List Nat) (off : ℕ) : Except JsError JsNum :=
  (getBytesLE view off 8).map (ieeeValue 11 52)

/-! ## PCD decoder (worker `parsePCDFile`) -/

/-- Result record of the worker decoders (`PCDData`): display-frame
vertices, colours, declared point count, and source-frame vertices. -/
structure PCDData where
  vertices : List JsVec3
  colors : List Vec3
  count : ℕ
  originalVertices : List JsVec3
deriving DecidableEq, Repr

/-- Parsed PCD header key lines (`POINTS` / `FIELDS` / `SIZE` / `TYPE`). -/
structure PCDHeader where
  pointCount : ℕ
  fields : List (List Char)
  sizes : List ℕ
  types : List (List Char)
deriving DecidableEq, Repr

/-- One step of the header loop: dispatch on `parts[0]`. -/
def pcdHeaderLine (h : PCDHeader) (line : List Char) : PCDHeader :=
  let parts := splitWs (jsTrim line)
  if parts.headD [] = "POINTS".data then
    { h with pointCount := jsParseIntNat (parts.getD 1 []) }
  else if parts.headD [] = "FIELDS".data then
    { h with fields := parts.drop 1 }
  else if parts.headD [] = "SIZE".data then
    { h with sizes := (parts.drop 1).map jsNumberNat }
  else if parts.headD [] = "TYPE".data then
    { h with types := parts.drop 1 }
  else h

/-- The header slice scanned by the decoder: the first
`min(length, 4096)` bytes, decoded as text. -/
def pcdHeaderText (bs : List Nat) : List Char :=
  textDecode (bs.take (min bs.length 4096))

/-- Header accumulated over the lines before the `DATA` line. -/
def pcdHeaderOf (headerText : List Char) (dataLine : ℕ) : PCDHeader :=
  (splitNl (headerText.take dataLine)).foldl pcdHeaderLine ⟨0, [], [], []⟩

/-- The `DATA` line's payload-mode token and the byte index where the
payload starts, from lines 72–74 of the worker: when no newline follows
`DATA`, JavaScript's `indexOf` returns `-1`, `slice(dataLine+5, -1)`
drops the final character, and `slice(0, dataLineEnd+1) = slice(0, 0)`
makes the payload start at byte 0. -/
def pcdDataTypeEnd (headerText : List Char) (dataLine : ℕ) : List Char × ℕ :=
  match jsIndexOfFrom headerText "\n".data dataLine with
  | some e =>
    (lowerStr (jsTrim ((headerText.take e).drop (dataLine + 5))), min (e + 1) headerText.length)
  | none =>
    (lowerStr (jsTrim ((headerText.take (headerText.length - 1)).drop (dataLine + 5))), 0)

/-- Cumulative byte offset of the colour field: `sum of sizes[0..rgbIndex)`. -/
def pcdColorOffset (sizes : List ℕ) (rgbIndex : ℕ) : ℕ :=
  ((sizes.take rgbIndex).foldl (· + ·) 0)

/-- One binary point record: x, y, z at record offsets 0/4/8 as f32, and
the packed colour when an `rgb`/`rgba` field exists. -/
def pcdBinaryPoint (view : List Nat) (off : ℕ) (hasRGB : Bool)
    (rgbIndex : Option ℕ) (sizes : List ℕ) :
    Except JsError (JsVec3 × JsVec3 × Vec3) := do
  let x ← getFloat32 view off
  let y ← getFloat32 view (off + 4)
  let z ← getFloat32 view (off + 8)
  let col ←
    match hasRGB, rgbIndex with
    | true, some ri => do
      let rgb ← getUint32 view (off + pcdColorOffset sizes ri)
      pure (⟨((rgb >>> 16) &&& 0xff : ℕ) / 255,
             ((rgb >>> 8) &&& 0xff : ℕ) / 255,
             ((rgb &&& 0xff : ℕ) : ℚ) / 255⟩ : Vec3)
    | _, _ => pure grayCol
  pure (⟨x, y, z⟩, jsVecToDisplay ⟨x, y, z⟩, col)

/-- The binary payload loop over point indices `[start, count)`. -/
def pcdBinaryLoop (view : List Nat) (pointSize : ℕ) (hasRGB : Bool)
    (rgbIndex : Option ℕ) (sizes : List ℕ) :
    ℕ → ℕ → Except JsError (List JsVec3 × List JsVec3 × List Vec3)
  | _, 0 => .ok ([], [], [])
  | i, n + 1 => do
    let (orig, disp, col) ← pcdBinaryPoint view (i * pointSize) hasRGB rgbIndex sizes
    let (origs, disps, cols) ← pcdBinaryLoop view pointSize hasRGB rgbIndex sizes (i + 1) n
    pure (orig :: origs, disp :: disps, col :: cols)

/-- The binary branch of `parsePCDFile` (lines 84–132): a `DataView`
over the payload, stride = sum of the field sizes. -/
def parsePCDBinary (bs : List Nat) (headerEndIndex : ℕ) (h : PCDHeader) :
    Except JsError PCDData := do
  let view := bs.drop headerEndIndex
  let pointSize := h.sizes.foldl (· + ·) 0
  let hasRGB := h.fields.contains "rgb".data || h.fields.contains "rgba".data
  let rgbIndex :=
    match h.fields.indexOf? "rgb".data with
    | some i => some i
    | none => h.fields.indexOf? "rgba".data
  let (origs, disps, cols) ← pcdBinaryLoop view pointSize hasRGB rgbIndex h.sizes 0 h.pointCount
  pure ⟨disps, cols, h.pointCount, origs⟩

/-- The source-frame vertex of one ascii payload line: x, y, z are
`parseFloat` of the first three whitespace tokens. -/
def pcdAsciiOrig (line : List Char) : JsVec3 :=
  ⟨jsParseFloat ((splitWs (jsTrim line)).getD 0 []),
   jsParseFloat ((splitWs (jsTrim line)).getD 1 []),
   jsParseFloat ((splitWs (jsTrim line)).getD 2 [])⟩

/-- The ascii branch of `parsePCDFile` (lines 133–166): split the
trimmed payload text on newlines, process the first
`min(lines.length, pointCount)` lines — each yielding its source vertex,
its display vertex and the unconditional gray colour; the
`Float32Array`s are sized to `pointCount`, so unwritten entries stay
zero; `count` is the declared `POINTS` value. -/
def parsePCDAscii (bs : List Nat) (headerEndIndex : ℕ) (h : PCDHeader) : PCDData :=
  let textData := textDecode (bs.drop headerEndIndex)
  let lines := splitNl (jsTrim textData)
  let n := min lines.length h.pointCount
  ⟨(List.range h.pointCount).map (fun i =>
      if i < n then jsVecToDisplay (pcdAsciiOrig (lines.getD i [])) else zeroJsVec),
   (List.range h.pointCount).map (fun i => if i < n then grayCol else zeroCol),
   h.pointCount,
   (List.range h.pointCount).map (fun i =>
      if i < n then pcdAsciiOrig (lines.getD i []) else zeroJsVec)⟩

/-- The worker's `parsePCDFile` (part_001 lines 37–169): find `DATA` in
the first 4096 bytes (`FormatError` otherwise), parse the header lines
before it, read the `DATA` token, then decode binary when the token is
`binary` and fall into the ascii branch for every other token. -/
def parsePCDFile (bs : List Nat) : Except JsError PCDData :=
  let headerText := pcdHeaderText bs
  match jsIndexOfFrom headerText "DATA".data 0 with
  | none => .error .formatErrorPCD
  | some dataLine =>
    let h := pcdHeaderOf headerText dataLine
    let dt := pcdDataTypeEnd headerText dataLine
    if dt.1 = ("binary").data then parsePCDBinary bs dt.2 h
    else .ok (parsePCDAscii bs dt.2 h)

/-! ## LAS decoder (`parseLASFile`, identical in the worker and in the
viewer class up to logging and an `originalColors` copy) -/

/-- The six per-axis scale/offset header doubles of a LAS file. -/
structure LASScales where
  xScale : JsNum
  yScale : JsNum
  zScale : JsNum
  xOffset : JsNum
  yOffset : JsNum
  zOffset : JsNum
deriving DecidableEq, Repr

/-- One LAS point record: int32 x/y/z at record offsets 0/4/8 scaled to
real coordinates, and the uint16 colour channels at the format's colour
offset when `hasColor && colorOffset > 0`. -/
def lasPoint (bs : List Nat) (off : ℕ) (sc : LASScales)
    (hasColor : Bool) (colorOffset : ℕ) :
    Except JsError (JsVec3 × JsVec3 × Vec3) := do
  let xInt ← getInt32 bs off
  let yInt ← getInt32 bs (off + 4)
  let zInt ← getInt32 bs (off + 8)
  let x := jsMulAdd (some (xInt : ℚ)) sc.xScale sc.xOffset
  let y := jsMulAdd (some (yInt : ℚ)) sc.yScale sc.yOffset
  let z := jsMulAdd (some (zInt : ℚ)) sc.zScale sc.zOffset
  let col ←
    if hasColor ∧ 0 < colorOffset then do
      let r ← getUint16 bs (off + colorOffset)
      let g ← getUint16 bs (off + colorOffset + 2)
      let b ← getUint16 bs (off + colorOffset + 4)
      pure (⟨(r : ℚ) / 65535, (g : ℚ) / 65535, (b : ℚ) / 65535⟩ : Vec3)
    else pure grayCol
  pure (⟨x, y, z⟩, jsVecToDisplay ⟨x, y, z⟩, col)

/-- The LAS point loop over point indices `[i, i + fuel)`. -/
def lasLoop (bs : List Nat) (base recLen : ℕ) (sc : LASScales)
    (hasColor : Bool) (colorOffset : ℕ) :
    ℕ → ℕ → Except JsError (List JsVec3 × List JsVec3 × List Vec3)
  | _, 0 => .ok ([], [], [])
  | i, n + 1 => do
    let (orig, disp, col) ← lasPoint bs (base + i * recLen) sc hasColor colorOffset
    let (origs, disps, cols) ← lasLoop bs base recLen sc hasColor colorOffset (i + 1) n
    pure (orig :: origs, disp :: disps, col :: cols)

/-- LAS point-data-format ID: uint8 at header byte 104. -/
def lasFormatId (bs : List Nat) : Except JsError ℕ :=
  getUint8 bs 104

/-- LAS point count: uint32 at byte 107 for version 1.x with minor < 4,
otherwise uint64 at byte 247. -/
def lasNumPoints (bs : List Nat) (versionMajor versionMinor : ℕ) : Except JsError ℕ :=
  if versionMajor = 1 ∧ versionMinor < 4 then getUint32 bs 107
  else getBigUint64 bs 247

/-- LAS colour presence flag: `[2, 3, 5, 7, 8, 10].includes(formatId)`. -/
def lasHasColor (formatId : ℕ) : Bool :=
  [2, 3, 5, 7, 8, 10].contains formatId

/-- LAS colour byte offset within a record: 20 for format 2, 28 for
format 3, 0 otherwise. -/
def lasColorOffset (formatId : ℕ) : ℕ :=
  if formatId = 2 then 20 else if formatId = 3 then 28 else 0

/-- The `parseLASFile` decoder (part_001 lines 172–256): `LASF`
signature check, fixed-offset header reads, point count selected by the
version (uint32 at 107 for 1.x with minor < 4, else uint64 at 247), then
the per-record loop. -/
def parseLASFile (bs : List Nat) : Except JsError PCDData := do
  let s0 ← getUint8 bs 0
  let s1 ← getUint8 bs 1
  let s2 ← getUint8 bs 2
  let s3 ← getUint8 bs 3
  if ([s0, s1, s2, s3].map Char.ofNat) ≠ ("LASF").data then
    .error .formatErrorLAS
  else do
    let versionMajor ← getUint8 bs 24
    let versionMinor ← getUint8 bs 25
    let offsetToPointData ← getUint32 bs 96
    let pointDataFormatId ← lasFormatId bs
    let pointDataRecordLength ← getUint16 bs 105
    let numPoints ← lasNumPoints bs versionMajor versionMinor
    let xScale ← getFloat64 bs 131
    let yScale ← getFloat64 bs 139
    let zScale ← getFloat64 bs 147
    let xOffset ← getFloat64 bs 155
    let yOffset ← getFloat64 bs 163
    let zOffset ← getFloat64 bs 171
    let sc : LASScales := ⟨xScale, yScale, zScale, xOffset, yOffset, zOffset⟩
    let hasColor := lasHasColor pointDataFormatId
    let colorOffset := lasColorOffset pointDataFormatId
    let (origs, disps, cols) ←
      lasLoop bs offsetToPointData pointDataRecordLength sc hasColor colorOffset 0 numPoints
    pure ⟨disps, cols, numPoints, origs⟩

/-! ## Coordinate transform

Forward map applied by every decoder (`vertices[i*3] = -y; ... = z;
... = -x`) and the inverse documented at `addWaypoint`
(`originalPosition = new THREE.Vector3(-position.z, -position.x,
position.y)`). -/

/-- Forward source→display map: `display = (-Ysrc, Zsrc, -Xsrc)`. -/
def toDisplay (p : Vec3) : Vec3 := ⟨-p.y, p.z, -p.x⟩

/-- Documented display→source inverse: `src = (-Zdisp, -Xdisp, Ydisp)`. -/
def toOriginal (p : Vec3) : Vec3 := ⟨-p.z, -p.x, p.y⟩

/-! ## Post-processing transforms (viewer class, index.tsx)

Decoded buffers as the viewer holds them (`PCDData` of index.tsx):
display vertices, current colours, original colours, and the count
field.  Coordinates of already-decoded buffers are exact rationals — the
claims about these transforms are sign/permutation/comparison facts with
no rounding. -/

/-- A viewer-side point buffer (vertex/colour triples plus the `count`
field carried alongside). -/
structure ViewBuf where
  vertices : List Vec3
  colors : List Vec3
  originalColors : List Vec3
  count : ℕ
deriving DecidableEq, Repr

/-- `calculateHeightRange` (index.tsx lines 1077–1092): min/max of the
display-frame vertical (`y`) coordinate; `none` models the untouched
`(Infinity, -Infinity)` of an empty buffer. -/
def calculateHeightRange (vertices : List Vec3) : Option (ℚ × ℚ) :=
  match vertices with
  | [] => none
  | v :: rest =>
    some (rest.foldl (fun (mm : ℚ × ℚ) w => (min mm.1 w.y, max mm.2 w.y)) (v.y, v.y))

/-- The push-loop of `applyHeightFilter` (lines 1107–1116): keep vertex
and its original colour when `aMin ≤ y ≤ aMax`.  A colour entry beyond
the colour list's end (JavaScript `undefined` → NaN) is modelled by the
zero default; the invariant buffers have equally long lists. -/
def heightFilterLoop (aMin aMax : ℚ) : List Vec3 → List Vec3 → List Vec3 × List Vec3
  | [], _ => ([], [])
  | v :: vs, cs =>
    let rest := heightFilterLoop aMin aMax vs cs.tail
    if aMin ≤ v.y ∧ v.y ≤ aMax then (v :: rest.1, cs.headD zeroCol :: rest.2)
    else rest

/-- `applyHeightFilter` (index.tsx lines 1094–1124): lerp the normalized
band `[fMin, fMax]` to the stored `[minHeight, maxHeight]`, keep the
points whose display `y` lies inclusively inside, compacted in order;
the result's colours double as its original colours and its count is the
kept length. -/
def applyHeightFilter (minHeight maxHeight fMin fMax : ℚ) (d : ViewBuf) : ViewBuf :=
  let actualMinHeight := minHeight + (maxHeight - minHeight) * fMin
  let actualMaxHeight := minHeight + (maxHeight - minHeight) * fMax
  let (vs, cs) := heightFilterLoop actualMinHeight actualMaxHeight d.vertices d.originalColors
  ⟨vs, cs, cs, vs.length⟩

/-- The downsampling loop (index.tsx line 852): indices
`0, level, 2·level, …` while both `i < count` and `j < newCount` hold;
the fuel argument is the remaining `newCount - j`. -/
def downsampleIndices (count level : ℕ) : ℕ → ℕ → List ℕ
  | _, 0 => []
  | i, fuel + 1 => if i < count then i :: downsampleIndices count level (i + level) fuel else []

/-- `downsamplePointCloud` (index.tsx lines 842–867): `level ≤ 1`
returns the buffer unchanged; otherwise keep every `level`-th point of
the first `count` entries, `newCount = ⌈count / level⌉`.  (The source
copies vertices, colors and originalColors; an index past a list's end
reads the zero default, unobservable under the count invariant.) -/
def downsamplePointCloud (d : ViewBuf) (level : ℕ) : ViewBuf :=
  if level ≤ 1 then d
  else
    let newCount := (d.count + level - 1) / level
    let idxs := downsampleIndices d.count level 0 newCount
    ⟨idxs.map (fun i => d.vertices.getD i zeroCol),
     idxs.map (fun i => d.colors.getD i zeroCol),
     idxs.map (fun i => d.originalColors.getD i zeroCol),
     newCount⟩

/-! ## Export assembler -/

/-- The original-frame selection loop of `exportFilteredPointCloud`
(index.tsx lines 1214–1235): keep an original vertex (and, when colours
exist, its colour) iff its source-frame `z` lies inclusively inside the
same `[actualMinHeight, actualMaxHeight]` band the display filter uses. -/
def exportSelectLoop (aMin aMax : ℚ) : List Vec3 → List Vec3 → List Vec3 × List Vec3
  | [], _ => ([], [])
  | v :: vs, cs =>
    let rest := exportSelectLoop aMin aMax vs cs.tail
    if aMin ≤ v.z ∧ v.z ≤ aMax then (v :: rest.1, cs.headD zeroCol :: rest.2)
    else rest

/-- The reassembled export payload of `exportFilteredPointCloud`
(index.tsx lines 1185–1253): vertices copied verbatim from the retained
original positions, filtered on source `z` against the lerped band; the
exported count is the kept length. -/
def exportFilteredPointCloud (minHeight maxHeight fMin fMax : ℚ)
    (originalVertices : List Vec3) (originalColors : Option (List Vec3)) :
    List Vec3 × List Vec3 × ℕ :=
  let actualMinHeight := minHeight + (maxHeight - minHeight) * fMin
  let actualMaxHeight := minHeight + (maxHeight - minHeight) * fMax
  let (vs, cs) :=
    exportSelectLoop actualMinHeight actualMaxHeight originalVertices
      (originalColors.getD [])
  (vs, if originalColors.isSome then cs else [], vs.length)

/-! ## Export serialization front-end (export.tsx `exportPointCloud`) -/

/-- Source formats of `OriginalPointData.format`. -/
inductive SrcFormat where
  | pcd
  | ply
  | las
  | unknown
deriving DecidableEq, Repr

/-- The format string of a `SrcFormat` (all non-empty, hence truthy). -/
def SrcFormat.str : SrcFormat → List Char
  | .pcd => ("pcd").data
  | .ply => ("ply").data
  | .las => ("las").data
  | .unknown => ("unknown").data

/-- Export target selection (export.tsx line 160):
`format || (data.format === 'las' ? 'pcd' : data.format) || 'pcd'`.
An explicit override (a non-empty string, truthy) wins; otherwise a LAS
source defaults to `pcd` and any other source to its own format string
(never empty, so the final `|| 'pcd'` is inert). -/
def exportFormatSel (format : Option (List Char)) (srcFormat : SrcFormat) : List Char :=
  match format with
  | some f => f
  | none => if srcFormat = .las then ("pcd").data else srcFormat.str

/-- The base-name computation (export.tsx line 163):
`fileName.replace(/\.(pcd|ply|las)$/i, '')` — strip a trailing
`.pcd`/`.ply`/`.las` suffix case-insensitively, and only such a suffix. -/
def stripKnownExt (name : List Char) : List Char :=
  let n := name.length
  if 4 ≤ n then
    match name.drop (n - 4) with
    | '.' :: e =>
      if [("pcd").data, ("ply").data, ("las").data].contains (lowerStr e) then
        name.take (n - 4)
      else name
    | _ => name
  else name

/-- The suggested file name of `exportPointCloud` (export.tsx lines
160–164): `<stripped base name>_filtered.<selected format>`. -/
def exportFileName (format : Option (List Char)) (srcFormat : SrcFormat)
    (fileName : List Char) : List Char :=
  stripKnownExt fileName ++ ("_filtered.").data ++ exportFormatSel format srcFormat

/-! ## Load controller (index.tsx `cancelLoad` / `loadFromURL`) -/

/-- Externally visible events of the load controller: a status-callback
invocation (`onLoadStatusChange`), an `AbortController.abort()` call, a
`Worker.terminate()` call. -/
inductive LoadEv where
  | status (msg : List Char)
  | abortReq
  | terminateWorker
deriving DecidableEq, Repr

/-- Which handles the controller currently holds (`abortController` and
`worker` fields, `null` = `false`). -/
structure LoadCtl where
  abortCtl : Bool
  worker : Bool
deriving DecidableEq, Repr

/-- `cancelLoad` (index.tsx lines 309–319): abort the in-flight request
if any, terminate the worker if any, then unconditionally report the
cancelled status `'已取消'`. -/
def cancelLoad (st : LoadCtl) : LoadCtl × List LoadEv :=
  let e₁ : List LoadEv := if st.abortCtl then [.abortReq] else []
  let e₂ : List LoadEv := if st.worker then [.terminateWorker] else []
  (⟨false, false⟩, e₁ ++ e₂ ++ [.status ("已取消").data])

/-- The entry sequence of `loadFromURL` (index.tsx lines 322–328): run
`cancelLoad` unconditionally, report `'准备下载...'`, install a fresh
`AbortController`, then proceed with the network interaction, whose
events (download progress `'下载中...'` statuses among them) are the
abstract continuation `rest`. -/
def loadFromURL (st : LoadCtl) (rest : List LoadEv) : LoadCtl × List LoadEv :=
  let (st₁, evs) := cancelLoad st
  ({ st₁ with abortCtl := true }, evs ++ .status ("准备下载...").data :: rest)

/-- The first status-callback message of an event trace. -/
def firstStatus : List LoadEv → Option (List Char)
  | [] => none
  | .status m :: _ => some m
  | _ :: rest => firstStatus rest

/-- Decidable equality of decoder outcomes (for evaluating the concrete
inputs below). -/
instance {ε α : Type} [DecidableEq ε] [DecidableEq α] : DecidableEq (Except ε α) := fun x y =>
  match x, y with
  | .ok a, .ok b =>
    if h : a = b then .isTrue (by rw [h]) else .isFalse (by simp [h])
  | .error a, .error b =>
    if h : a = b then .isTrue (by rw [h]) else .isFalse (by simp [h])
  | .ok _, .error _ => .isFalse (by simp)
  | .error _, .ok _ => .isFalse (by simp)

/-! ## Reference definitions and concrete inputs used by the theorems -/

/-- Clean specification of stride downsampling: keep indices
`0, k, 2k, …` of a list. -/
def everyNth (k : ℕ) : List α → List α
  | [] => []
  | a :: rest => a :: everyNth k (rest.drop (k - 1))
termination_by l => l.length
decreasing_by simp only [List.length_drop, List.length_cons]; omega

/-- Byte content of an ASCII string (concrete decoder inputs). -/
def strBytes (s : String) : List Nat := s.data.map Char.toNat

/-- A PCD buffer whose `DATA` token is `binary_compressed`. -/
def pcdBufBC : List Nat :=
  strBytes ("FIELDS x y z\nSIZE 4 4 4\nTYPE F F F\nPOINTS 1\nDATA binary_compressed\n1 2 3\n")

/-- An ascii PCD buffer with a packed `rgb` column (red = 16711680). -/
def pcdBufAsciiRGB : List Nat :=
  strBytes ("FIELDS x y z rgb\nSIZE 4 4 4 4\nTYPE F F F U\nPOINTS 2\nDATA ascii\n1 2 3 16711680\n4 5 6 255\n")

/-- An ascii PCD buffer without colour, two points declared, one line
supplied. -/
def pcdBufAsciiShort : List Nat :=
  strBytes ("FIELDS x y z\nSIZE 4 4 4\nTYPE F F F\nPOINTS 2\nDATA ascii\n1 2 3\n")

/-- A binary PCD buffer declaring 2 points but carrying a single
12-byte record. -/
def pcdBufBinTrunc : List Nat :=
  strBytes ("FIELDS x y z\nSIZE 4 4 4\nTYPE F F F\nPOINTS 2\nDATA binary\n") ++
    [0, 0, 128, 63, 0, 0, 0, 64, 0, 0, 64, 64]

/-- A LAS 1.2 header (point count 1, record length 20, point data at
byte 179) with the point records missing. -/
def lasBufTrunc : List Nat :=
  (((((strBytes ("LASF") ++ List.replicate 175 0).set 24 1).set 25 2).set 96 179).set
    105 20).set 107 1

/-- The same LAS layout with point-data-format ID 5 and its single
20-byte record present. -/
def lasBufF5 : List Nat :=
  ((((((strBytes ("LASF") ++ List.replicate 175 0).set 24 1).set 25 2).set 96 179).set
    104 5).set 105 20).set 107 1 ++ List.replicate 20 0

/-- Ten points whose display heights are evenly spaced 0–9. -/
def tenPtBuf : ViewBuf :=
  ⟨(List.range 10).map (fun k => ⟨0, (k : ℚ), 0⟩),
   (List.range 10).map (fun _ => grayCol),
   (List.range 10).map (fun _ => grayCol), 10⟩

/-! ## Theorems on the claims -/

section ClaimTheorems

set_option allowUnsafeReducibility true

attribute [local semireducible] Rat.add Rat.sub Rat.mul Rat.inv

set_option maxRecDepth 4000
set_option exponentiation.threshold 2000

/-- C5: composing the forward source→display map `(x,y,z) ↦ (-y,z,-x)`
with the documented inverse `(X,Y,Z) ↦ (-Z,-X,Y)` is the identity on
every point, exactly (both maps are sign-flips and a permutation of
exact coordinates — no drift). -/
theorem coordinate_roundtrip_identity (p : Vec3) :
    toOriginal (toDisplay p) = p := by
  cases p with
  | mk x y z => simp [toDisplay, toOriginal]

/-- C10: `loadFromURL` runs `cancelLoad` first unconditionally, and
`cancelLoad` always ends by reporting the cancelled status — even with
no download or worker in flight — so the first status notification of
every URL load is the cancelled status, before any download-progress
status (which can only occur in the continuation `rest`). -/
theorem loadFromURL_cancel_first (st : LoadCtl) (rest : List LoadEv) :
    ((cancelLoad st).2).getLast? = some (.status (("已取消").data)) ∧
    (loadFromURL st rest).2 =
      (cancelLoad st).2 ++ .status (("准备下载...").data) :: rest ∧
    firstStatus (loadFromURL st rest).2 = some (("已取消").data) := by
  obtain ⟨a, w⟩ := st
  cases a <;> cases w <;> exact ⟨rfl, rfl, rfl⟩

/-- C1 (counterexample): the buffer `pcdBufBC` carries the `DATA` token
`binary_compressed`, yet `parsePCDFile` does not fail with the PCD
format error — it decodes the payload (via the ascii fallback). -/
theorem parsePCD_unknown_dataType_cex :
    jsIndexOfFrom (pcdHeaderText pcdBufBC) (("DATA").data) 0 = some 44 ∧
    (pcdDataTypeEnd (pcdHeaderText pcdBufBC) 44).1 = ("binary_compressed").data ∧
    parsePCDFile pcdBufBC ≠ Except.error JsError.formatErrorPCD ∧
    (parsePCDFile pcdBufBC).isOk = true :=
  ⟨by decide, by decide, by decide, by decide⟩

/-- C1 (amended): when the scanned header contains `DATA`, a token
other than `binary` never produces a `FormatError`: the decoder falls
back to the ascii branch. -/
theorem parsePCD_unknown_dataType_fallback (bs : List Nat) (dl : ℕ)
    (hfound : jsIndexOfFrom (pcdHeaderText bs) (("DATA").data) 0 = some dl)
    (hnb : (pcdDataTypeEnd (pcdHeaderText bs) dl).1 ≠ ("binary").data) :
    parsePCDFile bs =
      Except.ok (parsePCDAscii bs (pcdDataTypeEnd (pcdHeaderText bs) dl).2
        (pcdHeaderOf (pcdHeaderText bs) dl)) := by
  simp only [parsePCDFile, hfound]
  exact if_neg hnb

/-- C1 (witness): the amended fallback evaluated on `pcdBufBC`. -/
theorem parsePCD_unknown_dataType_fallback_witness :
    parsePCDFile pcdBufBC =
      Except.ok (parsePCDAscii pcdBufBC (pcdDataTypeEnd (pcdHeaderText pcdBufBC) 44).2
        (pcdHeaderOf (pcdHeaderText pcdBufBC) 44)) :=
  parsePCD_unknown_dataType_fallback pcdBufBC 44 (by decide) (by decide)

/-- C2 (counterexample): an ascii PCD with field list `x y z rgb` and a
first point whose packed colour is `16711680` (pure red) decodes with
the default gray colour, not the claimed unpacked `(1, 0, 0)` — the
ascii branch ignores the colour column entirely. -/
theorem parsePCD_ascii_rgb_ignored_cex :
    parsePCDFile pcdBufAsciiRGB =
      Except.ok ⟨[⟨some (-2), some 3, some (-1)⟩, ⟨some (-5), some 6, some (-4)⟩],
        [grayCol, grayCol], 2,
        [⟨some 1, some 2, some 3⟩, ⟨some 4, some 5, some 6⟩]⟩ ∧
    grayCol ≠ ⟨((((16711680 >>> 16) &&& 0xff : ℕ)) : ℚ) / 255,
               ((((16711680 >>> 8) &&& 0xff : ℕ)) : ℚ) / 255,
               (((16711680 &&& 0xff : ℕ)) : ℚ) / 255⟩ :=
  ⟨by decide, by decide⟩

/-- C2 (amended): the ascii branch yields, for each of the first
`min(lines, POINTS)` payload lines, a point whose x, y, z are the
`parseFloat` of the line's first three whitespace tokens, with the
display vertices the fixed transform of the source vertices; the colour
column is ignored — the result does not depend on the header's field
list at all, and when at least `POINTS` lines are present every colour
triple is the gray default; the decoded `count` is the declared
`POINTS`. -/
theorem parsePCD_ascii_amended (bs : List Nat) (hEnd : ℕ) (h : PCDHeader) :
    (parsePCDAscii bs hEnd h).count = h.pointCount ∧
    parsePCDAscii bs hEnd h = parsePCDAscii bs hEnd ⟨h.pointCount, [], [], []⟩ ∧
    (parsePCDAscii bs hEnd h).vertices =
      (parsePCDAscii bs hEnd h).originalVertices.map jsVecToDisplay ∧
    (h.pointCount ≤ (splitNl (jsTrim (textDecode (bs.drop hEnd)))).length →
      (parsePCDAscii bs hEnd h).colors = List.replicate h.pointCount grayCol) ∧
    (∀ i, i < min (splitNl (jsTrim (textDecode (bs.drop hEnd)))).length h.pointCount →
      (parsePCDAscii bs hEnd h).originalVertices.getD i zeroJsVec =
        ⟨jsParseFloat ((splitWs (jsTrim
            ((splitNl (jsTrim (textDecode (bs.drop hEnd)))).getD i []))).getD 0 []),
         jsParseFloat ((splitWs (jsTrim
            ((splitNl (jsTrim (textDecode (bs.drop hEnd)))).getD i []))).getD 1 []),
         jsParseFloat ((splitWs (jsTrim
            ((splitNl (jsTrim (textDecode (bs.drop hEnd)))).getD i []))).getD 2 [])⟩) := by
  refine ⟨rfl, rfl, ?_, ?_, ?_⟩
  · simp only [parsePCDAscii, List.map_map]
    apply List.map_congr_left
    intro i hi
    simp only [Function.comp_apply]
    by_cases hin : i < min (splitNl (jsTrim (textDecode (List.drop hEnd bs)))).length h.pointCount
    · simp only [hin, ite_true]
    · simp only [hin, ite_false]
      simp [zeroJsVec, jsVecToDisplay, jsNeg]
  · intro hle
    have hmem : ∀ b ∈ (parsePCDAscii bs hEnd h).colors, b = grayCol := by
      intro b hb
      simp only [parsePCDAscii, List.mem_map, List.mem_range] at hb
      obtain ⟨i, hi, rfl⟩ := hb
      have hin : i < min (splitNl (jsTrim (textDecode (List.drop hEnd bs)))).length
          h.pointCount := by omega
      simp only [hin, ite_true]
    have hl : (parsePCDAscii bs hEnd h).colors.length = h.pointCount := by
      simp [parsePCDAscii]
    calc (parsePCDAscii bs hEnd h).colors
        = List.replicate (parsePCDAscii bs hEnd h).colors.length grayCol :=
          List.eq_replicate_of_mem hmem
      _ = List.replicate h.pointCount grayCol := by rw [hl]
  · intro i hi
    have h1 : i < h.pointCount := lt_of_lt_of_le hi (min_le_right _ _)
    rw [List.getD_eq_getElem?_getD]
    simp only [parsePCDAscii, List.getElem?_map, List.getElem?_range, h1,
      ite_true, hi, Option.map_some', Option.getD_some]
    rfl

/-- C2 (witness): the amended statement's gray-colour clause evaluated
on the rgb-field buffer. -/
theorem parsePCD_ascii_amended_witness :
    (parsePCDAscii pcdBufAsciiRGB 63
      ⟨2, [("x").data, ("y").data, ("z").data, ("rgb").data], [4, 4, 4, 4],
        [("F").data, ("F").data, ("F").data, ("U").data]⟩).colors =
      List.replicate 2 grayCol :=
  (parsePCD_ascii_amended pcdBufAsciiRGB 63
    ⟨2, [("x").data, ("y").data, ("z").data, ("rgb").data], [4, 4, 4, 4],
      [("F").data, ("F").data, ("F").data, ("U").data]⟩).2.2.2.1 (by decide)

/-- Helper: a successful binary-PCD point loop always carries exactly
the requested number of records. -/
theorem pcdBinaryLoop_ok_length {view : List Nat} {pointSize : ℕ} {hasRGB : Bool}
    {rgbIndex : Option ℕ} {sizes : List ℕ} :
    ∀ {n i : ℕ} {origs disps : List JsVec3} {cols : List Vec3},
      pcdBinaryLoop view pointSize hasRGB rgbIndex sizes i n = .ok (origs, disps, cols) →
      origs.length = n := by
  intro n
  induction n with
  | zero =>
    intro i origs disps cols h
    simp only [pcdBinaryLoop] at h
    cases h
    rfl
  | succ m ih =>
    intro i origs disps cols h
    simp only [pcdBinaryLoop] at h
    cases hp : pcdBinaryPoint view (i * pointSize) hasRGB rgbIndex sizes with
    | error e => rw [hp] at h; cases h
    | ok p =>
      rw [hp] at h
      obtain ⟨o1, d1, c1⟩ := p
      cases hr : pcdBinaryLoop view pointSize hasRGB rgbIndex sizes (i + 1) m with
      | error e => rw [hr] at h; cases h
      | ok t =>
        rw [hr] at h
        obtain ⟨os, ds, cs⟩ := t
        cases h
        simp [ih hr]

/-- Helper: a successful LAS point loop always carries exactly the
requested number of records. -/
theorem lasLoop_ok_length {bs : List Nat} {base recLen : ℕ} {sc : LASScales}
    {hasColor : Bool} {colorOffset : ℕ} :
    ∀ {n i : ℕ} {origs disps : List JsVec3} {cols : List Vec3},
      lasLoop bs base recLen sc hasColor colorOffset i n = .ok (origs, disps, cols) →
      origs.length = n ∧ cols.length = n ∧
      (∀ j, j < n → ∃ o d, lasPoint bs (base + (i + j) * recLen) sc hasColor colorOffset =
        .ok (o, d, cols.getD j zeroCol)) := by
  intro n
  induction n with
  | zero =>
    intro i origs disps cols h
    simp only [lasLoop] at h
    cases h
    exact ⟨rfl, rfl, fun j hj => absurd hj (Nat.not_lt_zero j)⟩
  | succ m ih =>
    intro i origs disps cols h
    simp only [lasLoop] at h
    cases hp : lasPoint bs (base + i * recLen) sc hasColor colorOffset with
    | error e => rw [hp] at h; cases h
    | ok p =>
      rw [hp] at h
      obtain ⟨o1, d1, c1⟩ := p
      cases hr : lasLoop bs base recLen sc hasColor colorOffset (i + 1) m with
      | error e => rw [hr] at h; cases h
      | ok t =>
        rw [hr] at h
        obtain ⟨os, ds, cs⟩ := t
        cases h
        obtain ⟨hlo, hlc, hpt⟩ := ih hr
        refine ⟨by simp [hlo], by simp [hlc], ?_⟩
        intro j hj
        cases j with
        | zero =>
          refine ⟨o1, d1, ?_⟩
          simpa using hp
        | succ k =>
          have hk := hpt k (by omega)
          obtain ⟨o, d, ho⟩ := hk
          refine ⟨o, d, ?_⟩
          have : base + (i + (k + 1)) * recLen = base + (i + 1 + k) * recLen := by ring_nf
          rw [this]
          simpa using ho

/-- C3 (counterexample): neither binary decoder bounds-checks its
reads: a binary PCD buffer declaring 2 points but carrying one record,
and a LAS buffer declaring 1 point with no records, both make decode
throw `RangeError` instead of stopping early. -/
theorem decoders_throw_on_truncation_cex :
    parsePCDFile pcdBufBinTrunc = Except.error JsError.rangeError ∧
    parseLASFile lasBufTrunc = Except.error JsError.rangeError :=
  ⟨by decide, by decide⟩

/-- C3 (amended): the ascii PCD branch is total and tolerates fewer
payload lines than `POINTS` by leaving the remaining preallocated
entries zero; the binary PCD and LAS point loops are not
bounds-checked — a successful decode always carries exactly the
declared number of records, and a buffer with fewer records than
declared makes the decode throw `RangeError` (see the counterexample)
instead of stopping early. -/
theorem decoder_truncation_amended :
    (∀ bs hEnd (h : PCDHeader),
      (parsePCDAscii bs hEnd h).originalVertices.length = h.pointCount ∧
      ∀ i, min (splitNl (jsTrim (textDecode (bs.drop hEnd)))).length h.pointCount ≤ i →
        (parsePCDAscii bs hEnd h).originalVertices.getD i zeroJsVec = zeroJsVec) ∧
    (∀ view pointSize hasRGB rgbIndex sizes i n (origs disps : List JsVec3)
        (cols : List Vec3),
      pcdBinaryLoop view pointSize hasRGB rgbIndex sizes i n = .ok (origs, disps, cols) →
      origs.length = n) ∧
    (∀ bs base recLen sc hasColor colorOffset i n (origs disps : List JsVec3)
        (cols : List Vec3),
      lasLoop bs base recLen sc hasColor colorOffset i n = .ok (origs, disps, cols) →
      origs.length = n) := by
  refine ⟨?_, ?_, ?_⟩
  · intro bs hEnd h
    constructor
    · simp [parsePCDAscii]
    · intro i hge
      by_cases hlt : i < h.pointCount
      · rw [List.getD_eq_getElem?_getD]
        have hni : ¬ i < min (splitNl (jsTrim (textDecode (bs.drop hEnd)))).length
            h.pointCount := not_lt.mpr hge
        simp only [parsePCDAscii, List.getElem?_map, List.getElem?_range, hlt,
          ite_true, Option.map_some', Option.getD_some, hni, ite_false]
      · apply List.getD_eq_default
        simp only [parsePCDAscii, List.length_map, List.length_range]
        omega
  · intro view pointSize hasRGB rgbIndex sizes i n origs disps cols hok
    exact pcdBinaryLoop_ok_length hok
  · intro bs base recLen sc hasColor colorOffset i n origs disps cols hok
    exact (lasLoop_ok_length hok).1

/-- C3 (witness): the amended statement evaluated on concrete runs —
the short ascii buffer's second entry stays zero, and one-record binary
PCD and LAS loops return exactly one record. -/
theorem decoder_truncation_amended_witness :
    (parsePCDAscii pcdBufAsciiShort 55 ⟨2, [], [], []⟩).originalVertices.getD 1 zeroJsVec =
      zeroJsVec ∧
    ([(⟨some 1, some 2, some 3⟩ : JsVec3)]).length = 1 ∧
    ([(⟨some 0, some 0, some 0⟩ : JsVec3)]).length = 1 :=
  ⟨((decoder_truncation_amended).1 pcdBufAsciiShort 55 ⟨2, [], [], []⟩).2 1 (by decide),
   (decoder_truncation_amended).2.1 [0, 0, 128, 63, 0, 0, 0, 64, 0, 0, 64, 64] 12 false
     none [4, 4, 4] 0 1 [⟨some 1, some 2, some 3⟩] [⟨some (-2), some 3, some (-1)⟩]
     [grayCol] (by decide),
   (decoder_truncation_amended).2.2 lasBufF5 179 20
     ⟨some 0, some 0, some 0, some 0, some 0, some 0⟩ false 0 0 1
     [⟨some 0, some 0, some 0⟩] [⟨some 0, some 0, some 0⟩] [grayCol] (by decide)⟩

/-- C9 (counterexample): a source file name whose extension is not
`.pcd`/`.ply`/`.las` is not stripped: exporting `a.xyz` as PCD suggests
`a.xyz_filtered.pcd`, not the claimed `a_filtered.pcd`. -/
theorem exportFileName_unknown_ext_cex :
    exportFileName none SrcFormat.pcd (("a.xyz").data) = ("a.xyz_filtered.pcd").data ∧
    ("a.xyz_filtered.pcd").data ≠ ("a_filtered.pcd").data :=
  ⟨by decide, by decide⟩

/-- Helper: inverting a successful `Except` bind. -/
theorem exceptBind_ok {ε α β : Type} {x : Except ε α} {f : α → Except ε β} {b : β}
    (h : (x >>= f) = .ok b) : ∃ a, x = .ok a ∧ f a = .ok b := by
  cases x with
  | error e =>
    simp only [Bind.bind, Except.bind] at h
    cases h
  | ok a =>
    refine ⟨a, rfl, ?_⟩
    simpa only [Bind.bind, Except.bind] using h

/-- Helper: with the colour guard off (`hasColor && colorOffset > 0`
false), a successful `lasPoint` yields the gray default — no colour
bytes are consulted. -/
theorem lasPoint_gray {bs : List Nat} {off : ℕ} {sc : LASScales} {hasColor : Bool}
    {colorOffset : ℕ} (hng : ¬(hasColor = true ∧ 0 < colorOffset))
    {o dp : JsVec3} {c : Vec3}
    (h : lasPoint bs off sc hasColor colorOffset = .ok (o, dp, c)) : c = grayCol := by
  simp only [lasPoint] at h
  obtain ⟨x1, hx1, h⟩ := exceptBind_ok h
  obtain ⟨x2, hx2, h⟩ := exceptBind_ok h
  obtain ⟨x3, hx3, h⟩ := exceptBind_ok h
  rw [if_neg (by simpa using hng)] at h
  obtain ⟨c0, hc0, h⟩ := exceptBind_ok h
  simp only [pure, Except.pure, Except.ok.injEq] at hc0 h
  cases h
  cases hc0
  rfl

/-- Helper: with the colour guard on, a successful `lasPoint` reads its
three little-endian uint16 channels at the colour offset and normalizes
each by 65535. -/
theorem lasPoint_color {bs : List Nat} {off : ℕ} {sc : LASScales} {colorOffset : ℕ}
    (hpos : 0 < colorOffset) {o dp : JsVec3} {c : Vec3}
    (h : lasPoint bs off sc true colorOffset = .ok (o, dp, c)) :
    c = ⟨(bytesLE bs (off + colorOffset) 2 : ℚ) / 65535,
         (bytesLE bs (off + colorOffset + 2) 2 : ℚ) / 65535,
         (bytesLE bs (off + colorOffset + 4) 2 : ℚ) / 65535⟩ := by
  simp only [lasPoint] at h
  obtain ⟨x1, hx1, h⟩ := exceptBind_ok h
  obtain ⟨x2, hx2, h⟩ := exceptBind_ok h
  obtain ⟨x3, hx3, h⟩ := exceptBind_ok h
  rw [if_pos (by simp [hpos])] at h
  obtain ⟨r, hr, h⟩ := exceptBind_ok h
  obtain ⟨g, hg, h⟩ := exceptBind_ok h
  obtain ⟨b, hb, h⟩ := exceptBind_ok h
  obtain ⟨c0, hc0, h⟩ := exceptBind_ok h
  simp only [pure, Except.pure, Except.ok.injEq] at hc0 h
  cases h
  cases hc0
  simp only [getUint16, getBytesLE] at hr hg hb
  have hr2 : r = bytesLE bs (off + colorOffset) 2 := by
    by_cases hok : off + colorOffset + 2 ≤ bs.length
    · rw [if_pos hok] at hr; cases hr; rfl
    · rw [if_neg hok] at hr; cases hr
  have hg2 : g = bytesLE bs (off + colorOffset + 2) 2 := by
    by_cases hok : off + colorOffset + 2 + 2 ≤ bs.length
    · rw [if_pos hok] at hg; cases hg; rfl
    · rw [if_neg hok] at hg; cases hg
  have hb2 : b = bytesLE bs (off + colorOffset + 4) 2 := by
    by_cases hok : off + colorOffset + 4 + 2 ≤ bs.length
    · rw [if_pos hok] at hb; cases hb; rfl
    · rw [if_neg hok] at hb; cases hb
  rw [hr2, hg2, hb2]

/-- Helper: with the colour guard off, every colour of a successful LAS
loop is the gray default. -/
theorem lasLoop_gray {bs : List Nat} {base recLen : ℕ} {sc : LASScales} {hasColor : Bool}
    {colorOffset : ℕ} (hng : ¬(hasColor = true ∧ 0 < colorOffset)) :
    ∀ {n i : ℕ} {origs disps : List JsVec3} {cols : List Vec3},
      lasLoop bs base recLen sc hasColor colorOffset i n = .ok (origs, disps, cols) →
      cols = List.replicate n grayCol := by
  intro n
  induction n with
  | zero =>
    intro i origs disps cols h
    simp only [lasLoop] at h
    cases h
    rfl
  | succ m ih =>
    intro i origs disps cols h
    simp only [lasLoop] at h
    cases hp : lasPoint bs (base + i * recLen) sc hasColor colorOffset with
    | error e => rw [hp] at h; cases h
    | ok p =>
      rw [hp] at h
      obtain ⟨o1, d1, c1⟩ := p
      cases hr : lasLoop bs base recLen sc hasColor colorOffset (i + 1) m with
      | error e => rw [hr] at h; cases h
      | ok t =>
        rw [hr] at h
        obtain ⟨os, ds, cs⟩ := t
        cases h
        have hc1 := lasPoint_gray hng hp
        rw [hc1, ih hr]
        rfl

/-- C6: in every successfully decoded LAS buffer, a point-data-format
ID in {5, 7, 8, 10} leaves the colour-offset table at 0, so every point
gets the gray default and no record byte is read as colour (the colours
do not depend on the records at all); only format IDs 2 and 3 read
colours, at record offsets 20 and 28 respectively, each channel a
little-endian uint16 divided by 65535. -/
theorem las_color_formats (bs : List Nat) (d : PCDData) (fid : ℕ)
    (hok : parseLASFile bs = .ok d) (hfid : lasFormatId bs = .ok fid) :
    (lasColorOffset 2 = 20 ∧ lasColorOffset 3 = 28) ∧
    (fid ∈ [5, 7, 8, 10] → d.colors = List.replicate d.count grayCol) ∧
    (∀ base recLen, getUint32 bs 96 = .ok base → getUint16 bs 105 = .ok recLen →
      (fid = 2 ∨ fid = 3) →
      ∀ j, j < d.count →
        d.colors.getD j zeroCol =
          ⟨(bytesLE bs (base + j * recLen + lasColorOffset fid) 2 : ℚ) / 65535,
           (bytesLE bs (base + j * recLen + lasColorOffset fid + 2) 2 : ℚ) / 65535,
           (bytesLE bs (base + j * recLen + lasColorOffset fid + 4) 2 : ℚ) / 65535⟩) := by
  simp only [parseLASFile] at hok
  obtain ⟨s0, hs0, hok⟩ := exceptBind_ok hok
  obtain ⟨s1, hs1, hok⟩ := exceptBind_ok hok
  obtain ⟨s2, hs2, hok⟩ := exceptBind_ok hok
  obtain ⟨s3, hs3, hok⟩ := exceptBind_ok hok
  by_cases hsig : ([s0, s1, s2, s3].map Char.ofNat) ≠ ("LASF").data
  · rw [if_pos hsig] at hok
    cases hok
  · rw [if_neg hsig] at hok
    obtain ⟨vM, hvM, hok⟩ := exceptBind_ok hok
    obtain ⟨vm, hvm, hok⟩ := exceptBind_ok hok
    obtain ⟨offPD, hoffPD, hok⟩ := exceptBind_ok hok
    obtain ⟨pfid, hpfid, hok⟩ := exceptBind_ok hok
    obtain ⟨recL, hrecL, hok⟩ := exceptBind_ok hok
    obtain ⟨nPts, hnPts, hok⟩ := exceptBind_ok hok
    obtain ⟨xs, hxs, hok⟩ := exceptBind_ok hok
    obtain ⟨ys, hys, hok⟩ := exceptBind_ok hok
    obtain ⟨zs, hzs, hok⟩ := exceptBind_ok hok
    obtain ⟨xo, hxo, hok⟩ := exceptBind_ok hok
    obtain ⟨yo, hyo, hok⟩ := exceptBind_ok hok
    obtain ⟨zo, hzo, hok⟩ := exceptBind_ok hok
    obtain ⟨trip, htrip, hok⟩ := exceptBind_ok hok
    obtain ⟨os, ds, cs⟩ := trip
    simp only [pure, Except.pure, Except.ok.injEq] at hok
    subst hok
    have hfid2 : pfid = fid := by
      rw [hpfid] at hfid
      cases hfid
      rfl
    rw [hfid2] at htrip
    refine ⟨⟨rfl, rfl⟩, ?_, ?_⟩
    · intro hmem
      have hmem2 : fid = 5 ∨ fid = 7 ∨ fid = 8 ∨ fid = 10 := by simpa using hmem
      have hng : ¬(lasHasColor fid = true ∧ 0 < lasColorOffset fid) := by
        rcases hmem2 with rfl | rfl | rfl | rfl <;> simp [lasColorOffset]
      have := lasLoop_gray hng htrip
      simpa using this
    · intro base recLen hbase hrecLen hf23 j hj
      have hb2 : offPD = base := by rw [hoffPD] at hbase; cases hbase; rfl
      have hr2 : recL = recLen := by rw [hrecL] at hrecLen; cases hrecLen; rfl
      subst hb2
      subst hr2
      have hpt := (lasLoop_ok_length htrip).2.2 j (by simpa using hj)
      obtain ⟨o, dp, hpt⟩ := hpt
      have hhc : lasHasColor fid = true := by
        rcases hf23 with rfl | rfl <;> decide
      have hpos : 0 < lasColorOffset fid := by
        rcases hf23 with rfl | rfl <;> decide
      rw [hhc] at hpt
      have hcol := lasPoint_color hpos hpt
      simp only [Nat.zero_add] at hcol
      exact hcol.symm ▸ rfl

/-- C6 (witness): the format-5 buffer decodes with the gray default for
its single point, and the colour-offset table names 20 and 28 for
formats 2 and 3. -/
theorem las_color_formats_witness :
    (lasColorOffset 2 = 20 ∧ lasColorOffset 3 = 28) ∧
    (⟨[⟨some 0, some 0, some 0⟩], [grayCol], 1,
        [⟨some 0, some 0, some 0⟩]⟩ : PCDData).colors = List.replicate 1 grayCol :=
  ⟨(las_color_formats lasBufF5 ⟨[⟨some 0, some 0, some 0⟩], [grayCol], 1,
      [⟨some 0, some 0, some 0⟩]⟩ 5 (by decide) (by decide)).1,
   (las_color_formats lasBufF5 ⟨[⟨some 0, some 0, some 0⟩], [grayCol], 1,
      [⟨some 0, some 0, some 0⟩]⟩ 5 (by decide) (by decide)).2.1 (by decide)⟩

/-- Helper: the kept vertices of the height-filter loop are the ordered
compaction of the vertices inside the inclusive band. -/
theorem heightFilterLoop_fst (a b : ℚ) :
    ∀ (vs cs : List Vec3),
      (heightFilterLoop a b vs cs).1 = vs.filter (fun v => decide (a ≤ v.y ∧ v.y ≤ b)) := by
  intro vs
  induction vs with
  | nil => intro cs; rfl
  | cons v rest ih =>
    intro cs
    simp only [heightFilterLoop, List.filter_cons]
    by_cases hc : a ≤ v.y ∧ v.y ≤ b
    · simp [hc, ih]
    · simp [hc, ih]

/-- Helper: the kept vertices of the export selection loop are the
ordered compaction of the source vertices whose `z` lies inside the
inclusive band. -/
theorem exportSelectLoop_fst (a b : ℚ) :
    ∀ (vs cs : List Vec3),
      (exportSelectLoop a b vs cs).1 = vs.filter (fun v => decide (a ≤ v.z ∧ v.z ≤ b)) := by
  intro vs
  induction vs with
  | nil => intro cs; rfl
  | cons v rest ih =>
    intro cs
    simp only [exportSelectLoop, List.filter_cons]
    by_cases hc : a ≤ v.z ∧ v.z ≤ b
    · simp [hc, ih]
    · simp [hc, ih]

/-- C4: for every source buffer and band, the Export Assembler's subset
(filter on original-frame `z`) is exactly the display filter's subset
(filter on display-frame `y` of the transformed buffer) — index for
index, since the display vertices are the fixed transform of the
originals; the exported vertices are copied verbatim from the retained
originals (no inverse transform), and the exported count equals the
displayed filtered count. -/
theorem export_matches_display (minH maxH fMin fMax : ℚ)
    (orig : List Vec3) (colors : List Vec3) (origC : Option (List Vec3)) :
    (exportFilteredPointCloud minH maxH fMin fMax orig origC).1 =
      orig.filter (fun p =>
        decide (minH + (maxH - minH) * fMin ≤ p.z ∧ p.z ≤ minH + (maxH - minH) * fMax)) ∧
    (applyHeightFilter minH maxH fMin fMax
        ⟨orig.map toDisplay, colors, colors, orig.length⟩).vertices =
      (orig.filter (fun p =>
        decide (minH + (maxH - minH) * fMin ≤ p.z ∧ p.z ≤ minH + (maxH - minH) * fMax))).map
          toDisplay ∧
    (exportFilteredPointCloud minH maxH fMin fMax orig origC).2.2 =
      (applyHeightFilter minH maxH fMin fMax
        ⟨orig.map toDisplay, colors, colors, orig.length⟩).count := by
  have he := exportSelectLoop_fst (minH + (maxH - minH) * fMin) (minH + (maxH - minH) * fMax)
    orig (origC.getD [])
  have hd := heightFilterLoop_fst (minH + (maxH - minH) * fMin) (minH + (maxH - minH) * fMax)
    (orig.map toDisplay) colors
  have hpred : ((fun v : Vec3 => decide (minH + (maxH - minH) * fMin ≤ v.y ∧
        v.y ≤ minH + (maxH - minH) * fMax)) ∘ toDisplay) =
      (fun p : Vec3 => decide (minH + (maxH - minH) * fMin ≤ p.z ∧
        p.z ≤ minH + (maxH - minH) * fMax)) :=
    funext (fun p => rfl)
  refine ⟨he, ?_, ?_⟩
  · show (heightFilterLoop _ _ _ _).1 = _
    rw [hd, List.filter_map, hpred]
  · show (exportSelectLoop _ _ _ _).1.length = (heightFilterLoop _ _ _ _).1.length
    rw [hd, he, List.filter_map, List.length_map, hpred]

/-- C7: with the observed vertical range `[mn, mx]`, the height filter
keeps exactly the points whose display `y` lies inclusively inside the
normalized band lerp-mapped to `[mn, mx]`, compacted in order, and its
count is the kept length. -/
theorem applyHeightFilter_spec (d : ViewBuf) (mn mx fMin fMax : ℚ)
    (_hrange : calculateHeightRange d.vertices = some (mn, mx)) :
    (applyHeightFilter mn mx fMin fMax d).vertices =
      d.vertices.filter (fun v => decide (mn + (mx - mn) * fMin ≤ v.y ∧
        v.y ≤ mn + (mx - mn) * fMax)) ∧
    (applyHeightFilter mn mx fMin fMax d).count =
      (d.vertices.filter (fun v => decide (mn + (mx - mn) * fMin ≤ v.y ∧
        v.y ≤ mn + (mx - mn) * fMax))).length := by
  have h := heightFilterLoop_fst (mn + (mx - mn) * fMin) (mn + (mx - mn) * fMax)
    d.vertices d.originalColors
  refine ⟨?_, ?_⟩
  · show (heightFilterLoop _ _ _ _).1 = _
    exact h
  · show (heightFilterLoop _ _ _ _).1.length = _
    rw [h]

/-- C7 (witness): ten points with heights evenly spaced 0–9 under
`heightMin = 0.5` keep exactly the five highest, in order. -/
theorem applyHeightFilter_spec_witness :
    calculateHeightRange tenPtBuf.vertices = some (0, 9) ∧
    (applyHeightFilter 0 9 (1/2) 1 tenPtBuf).vertices =
      [⟨0, 5, 0⟩, ⟨0, 6, 0⟩, ⟨0, 7, 0⟩, ⟨0, 8, 0⟩, ⟨0, 9, 0⟩] ∧
    (applyHeightFilter 0 9 (1/2) 1 tenPtBuf).count = 5 :=
  ⟨by decide,
   (applyHeightFilter_spec tenPtBuf 0 9 (1/2) 1 (by decide)).1.trans (by decide),
   (applyHeightFilter_spec tenPtBuf 0 9 (1/2) 1 (by decide)).2.trans (by decide)⟩

/-- Helper: stride 1 keeps everything. -/
theorem everyNth_one (l : List α) : everyNth 1 l = l := by
  induction l with
  | nil => simp [everyNth]
  | cons a rest ih => simp [everyNth, ih]

/-- Helper: indexing with a default after a drop. -/
theorem getD_drop (l : List α) (k j : ℕ) (d : α) :
    (l.drop k).getD j d = l.getD (k + j) d := by
  rw [List.getD_eq_getElem?_getD, List.getD_eq_getElem?_getD, List.getElem?_drop]

/-- Helper: shifting the start index of the downsampling loop. -/
theorem downsampleIndices_shift (c k s : ℕ) (hs : s ≤ c) :
    ∀ (fuel i : ℕ), downsampleIndices c k (s + i) fuel =
      (downsampleIndices (c - s) k i fuel).map (s + ·) := by
  intro fuel
  induction fuel with
  | zero => intro i; rfl
  | succ m ih =>
    intro i
    simp only [downsampleIndices]
    by_cases hi : i < c - s
    · have hi2 : s + i < c := by omega
      simp only [hi, hi2, ite_true, List.map_cons]
      congr 1
      rw [← ih (i + k)]
      congr 1
      omega
    · have hi2 : ¬ s + i < c := by omega
      simp [hi, hi2]

/-- Helper: the fueled downsampling loop over a full list realizes the
every-`k`-th selection. -/
theorem downsampleIndices_getD_aux (k : ℕ) (hk : 1 ≤ k) :
    ∀ (n : ℕ) (l : List α), l.length = n → ∀ (d : α),
      (downsampleIndices l.length k 0 ((l.length + k - 1) / k)).map (fun i => l.getD i d) =
        everyNth k l := by
  intro n
  induction n using Nat.strong_induction_on with
  | _ n ih =>
  intro l hn d
  cases l with
  | nil =>
    have hz : (k - 1) / k = 0 := Nat.div_eq_of_lt (by omega)
    simp [hz, downsampleIndices, everyNth]
  | cons a rest =>
    subst hn
    have hfuel : ((a :: rest).length + k - 1) / k = rest.length / k + 1 := by
      simp only [List.length_cons]
      have h2 : rest.length + 1 + k - 1 = rest.length + k := by omega
      rw [h2, Nat.add_div_right _ (by omega)]
    rw [hfuel]
    simp only [downsampleIndices, List.length_cons, Nat.zero_lt_succ, ite_true, List.map_cons]
    have hhead : (a :: rest).getD 0 d = a := rfl
    rw [hhead]
    have heq : everyNth k (a :: rest) = a :: everyNth k (rest.drop (k - 1)) := by
      simp [everyNth]
    rw [heq]
    congr 1
    by_cases hk2 : k ≤ rest.length + 1
    · have hshift := downsampleIndices_shift (rest.length + 1) k k (by omega)
        (rest.length / k) 0
      have hk0 : k + 0 = k := by omega
      rw [hk0] at hshift
      rw [Nat.zero_add, hshift, List.map_map]
      have hlen : (rest.drop (k - 1)).length = rest.length + 1 - k := by
        simp only [List.length_drop]; omega
      have hih := ih (rest.drop (k - 1)).length
        (by rw [hlen]; simp only [List.length_cons]; omega) (rest.drop (k - 1)) rfl d
      have hfuel2 : ((rest.drop (k - 1)).length + k - 1) / k = rest.length / k := by
        rw [hlen]
        have h3 : rest.length + 1 - k + k - 1 = rest.length := by omega
        rw [h3]
      rw [hfuel2, hlen] at hih
      rw [← hih]
      apply List.map_congr_left
      intro j hj
      simp only [Function.comp_apply]
      rw [getD_drop]
      have hkj : k + j = k - 1 + j + 1 := by omega
      rw [hkj, List.getD_cons_succ]
    · have h0 : rest.length / k = 0 := Nat.div_eq_of_lt (by omega)
      rw [h0]
      have hdrop : rest.drop (k - 1) = [] := List.drop_eq_nil_of_le (by omega)
      simp [downsampleIndices, hdrop, everyNth]

/-- Helper: the every-`k`-th selection keeps exactly `⌈length / k⌉`
elements. -/
theorem everyNth_length_aux (k : ℕ) (hk : 1 ≤ k) :
    ∀ (n : ℕ) (l : List α), l.length = n →
      (everyNth k l).length = (l.length + k - 1) / k := by
  intro n
  induction n using Nat.strong_induction_on with
  | _ n ih =>
  intro l hn
  cases l with
  | nil =>
    simp only [everyNth, List.length_nil, Nat.zero_add]
    exact (Nat.div_eq_of_lt (by omega)).symm
  | cons a rest =>
    subst hn
    have heq : everyNth k (a :: rest) = a :: everyNth k (rest.drop (k - 1)) := by
      simp [everyNth]
    rw [heq]
    simp only [List.length_cons]
    have hlen : (rest.drop (k - 1)).length = rest.length - (k - 1) := by
      simp [List.length_drop]
    rw [ih (rest.drop (k - 1)).length
      (by rw [hlen]; simp only [List.length_cons]; omega) _ rfl]
    rw [hlen]
    have h2 : rest.length + 1 + k - 1 = rest.length + k := by omega
    rw [h2, Nat.add_div_right _ (by omega)]
    by_cases hk2 : k - 1 ≤ rest.length
    · have h1 : rest.length - (k - 1) + k - 1 = rest.length := by omega
      rw [h1]
    · have h1 : rest.length - (k - 1) = 0 := by omega
      have h3 : rest.length / k = 0 := Nat.div_eq_of_lt (show rest.length < k by omega)
      have h4 : (0 + k - 1) / k = 0 := Nat.div_eq_of_lt (show 0 + k - 1 < k by omega)
      rw [h1, h3, h4]

/-- C8: for every buffer with a consistent count and every stride ≥ 1,
downsampling keeps every stride-th point in original order — exactly
`⌈count / stride⌉` of them — and stride 1 returns the buffer itself
unchanged. -/
theorem downsample_spec (d : ViewBuf) (level : ℕ) (h1 : 1 ≤ level)
    (h2 : d.count = d.vertices.length) :
    (downsamplePointCloud d level).vertices = everyNth level d.vertices ∧
    (downsamplePointCloud d level).count = (d.count + level - 1) / level ∧
    downsamplePointCloud d 1 = d := by
  refine ⟨?_, ?_, rfl⟩
  · by_cases hl : level ≤ 1
    · have hl1 : level = 1 := by omega
      subst hl1
      show d.vertices = everyNth 1 d.vertices
      rw [everyNth_one]
    · show (downsamplePointCloud d level).vertices = _
      simp only [downsamplePointCloud, hl, ite_false]
      rw [h2]
      exact downsampleIndices_getD_aux level (by omega) d.vertices.length d.vertices rfl zeroCol
  · by_cases hl : level ≤ 1
    · have hl1 : level = 1 := by omega
      subst hl1
      show d.count = (d.count + 1 - 1) / 1
      simp
    · simp only [downsamplePointCloud, hl, ite_false]

/-- C8 (witness): downsampling the ten-point buffer by 3 yields
`⌈10 / 3⌉ = 4` points, and stride 1 is the identity. -/
theorem downsample_spec_witness :
    (downsamplePointCloud tenPtBuf 3).count = 4 ∧
    downsamplePointCloud tenPtBuf 1 = tenPtBuf :=
  ⟨((downsample_spec tenPtBuf 3 (by decide) (by decide)).2.1).trans (by decide),
   (downsample_spec tenPtBuf 3 (by decide) (by decide)).2.2⟩

/-- C9 (amended): the export target is the explicit override when
given, else PCD for a LAS source, else the source's own format; the
suggested file name is the source name with a trailing
`.pcd`/`.ply`/`.las` (case-insensitive) stripped — other extensions are
kept verbatim — followed by `_filtered.` and the target format. -/
theorem exportPointCloud_naming_amended (format : Option (List Char)) (fmt : SrcFormat)
    (name : List Char) :
    exportFileName format fmt name =
      stripKnownExt name ++ ("_filtered.").data ++ exportFormatSel format fmt ∧
    (∀ f, format = some f → exportFormatSel format fmt = f) ∧
    (format = none → fmt = SrcFormat.las → exportFormatSel format fmt = ("pcd").data) ∧
    (format = none → fmt ≠ SrcFormat.las → exportFormatSel format fmt = fmt.str) ∧
    (∀ (base e : List Char),
      [("pcd").data, ("ply").data, ("las").data].contains (lowerStr e) = true →
      stripKnownExt (base ++ '.' :: e) = base) := by
  refine ⟨rfl, ?_, ?_, ?_, ?_⟩
  · intro f hf
    rw [hf]
    rfl
  · intro h1 h2
    subst h1
    simp [exportFormatSel, h2]
  · intro h1 h2
    subst h1
    simp [exportFormatSel, h2]
  · intro base e hmem
    have hdisj : lowerStr e = ("pcd").data ∨ lowerStr e = ("ply").data ∨
        lowerStr e = ("las").data := by
      simpa [List.contains_cons, beq_iff_eq] using hmem
    have hlen : e.length = 3 := by
      have hpres : (lowerStr e).length = e.length := List.length_map e lowerCh
      rcases hdisj with h | h | h <;> rw [h] at hpres <;> simpa using hpres.symm
    have hname : (base ++ '.' :: e).length = base.length + 4 := by
      simp [hlen]
    simp only [stripKnownExt, hname]
    have h4 : 4 ≤ base.length + 4 := by omega
    rw [if_pos h4]
    have hsub : base.length + 4 - 4 = base.length := by omega
    rw [hsub, List.drop_left, List.take_left]
    rcases hdisj with h | h | h <;> simp [h]

/-- C9 (witness): a LAS source with no override targets PCD, and a
known extension is stripped case-insensitively. -/
theorem exportPointCloud_naming_amended_witness :
    exportFormatSel none SrcFormat.las = ("pcd").data ∧
    stripKnownExt (("scan").data ++ '.' :: ("LAS").data) = ("scan").data :=
  ⟨(exportPointCloud_naming_amended none SrcFormat.las (("scan.LAS").data)).2.2.1 rfl rfl,
   (exportPointCloud_naming_amended none SrcFormat.las (("scan.LAS").data)).2.2.2.2
     (("scan").data) (("LAS").data) (by decide)⟩

end ClaimTheorems

end PCV
